import Mathlib

/-!
# Verification of the cosmopp L-BFGS wrapper layer

Shallow embedding of `src/include/lbfgs.hpp` (the `BasicLargeVector`,
`BasicLargeVectorFactory`, `BasicLBFGSFunc` and `LBFGS` wrapper classes) and of
the test objective/gradient pair in `src/source/lbfgs_test.cpp`.

Scalars are modelled by an arbitrary `LinearOrderedField` (the C++ code computes
with `double`; the field models its exact real arithmetic), so every definition
stays executable and witnesses can be evaluated over `ℚ`, while the calculus
facts are stated over `ℝ`.

The generic engine `LBFGS_General` lives in `lbfgs_general.hpp`, which is
referenced from `lbfgs.hpp` but is not among the visible sources; the parts of
it that claims depend on (HistoryBuffer insertion, the state machine's
dimension check, the terminal states of `minimize`) are modelled from the spec
and marked `Modelled from the spec:` in their doc comments.
-/

namespace CosmoPP

/-- `BasicLargeVector` (lbfgs.hpp:38-61): wraps `std::vector<double> v_`;
`contents()` exposes `v_` directly. -/
structure BasicLargeVector (α : Type) where
  v_ : List α

/-- `BasicLargeVector::BasicLargeVector(int n) : v_(n, 0)` (lbfgs.hpp:41):
a vector of `n` zero elements. -/
def BasicLargeVector.mkZero (α : Type) [Zero α] (n : ℕ) : BasicLargeVector α :=
  ⟨List.replicate n 0⟩

/-- `BasicLargeVectorFactory` (lbfgs.hpp:63-78): stores the configured size `n_`
(checked nonnegative; modelled by `ℕ`). -/
structure BasicLargeVectorFactory where
  n_ : ℕ

/-- `BasicLargeVectorFactory::giveMeOne()` (lbfgs.hpp:71-74):
`return new BasicLargeVector(n_)`. -/
def BasicLargeVectorFactory.giveMeOne (α : Type) [Zero α]
    (fac : BasicLargeVectorFactory) : BasicLargeVector α :=
  BasicLargeVector.mkZero α fac.n_

/-- Euclidean dot product of the element lists, as
`BasicLargeVector::dotProduct` computes it elementwise. -/
def dotL {α : Type} [Mul α] [AddCommMonoid α] (a b : List α) : α :=
  (List.zipWith (fun x y => x * y) a b).sum

/-- A HistoryBuffer entry: the `(s_k, y_k, rho_k)` triple of the spec, with
`rho = 1 / (y · s)`. -/
structure HistEntry (α : Type) where
  s : List α
  y : List α
  rho : α

/-- Modelled from the spec: the HistoryBuffer of `LBFGS_General`
(`lbfgs_general.hpp` is not among the visible sources). The buffer holds
entries oldest-first; inserting appends the new entry at the back and, when the
buffer is already at capacity `m`, evicts from the front so that at most `m`
entries remain. -/
def histInsert {α : Type} (m : ℕ) (buf : List (HistEntry α)) (e : HistEntry α) :
    List (HistEntry α) :=
  List.drop (buf.length + 1 - m) (buf ++ [e])

/-- Modelled from the spec: the insertion policy of `LBFGS_General` after each
accepted step — "reject (do not insert) if `s · y ≤ ε_curvature` for a small
positive threshold ...; otherwise insert, evicting the oldest entry if at
capacity `m`", storing `rho = 1 / (y · s)`. -/
def histUpdate {α : Type} [LinearOrderedField α] (m : ℕ) (eps : α)
    (buf : List (HistEntry α)) (s y : List α) : List (HistEntry α) :=
  if dotL s y ≤ eps then buf else histInsert m buf ⟨s, y, 1 / dotL s y⟩

/-- Unconditional insertions of a whole chronological sequence of entries into
an initially empty HistoryBuffer. -/
def histRun {α : Type} (m : ℕ) (l : List (HistEntry α)) : List (HistEntry α) :=
  l.foldl (histInsert m) []

/-- A whole run of curvature-checked updates: fold `histUpdate` over the
chronological sequence of candidate `(s, y)` pairs, starting empty. -/
def histRunUpdates {α : Type} [LinearOrderedField α] (m : ℕ) (eps : α)
    (cands : List (List α × List α)) : List (HistEntry α) :=
  cands.foldl (fun buf c => histUpdate m eps buf c.1 c.2) []

/-- Requests a caller can make of a `BasicLBFGSFunc` binding
(lbfgs.hpp:80-93): `set(x)`, `value()`, `derivative(res)`. -/
inductive FuncOp (α : Type) where
  | setPt : BasicLargeVector α → FuncOp α
  | value : FuncOp α
  | deriv : FuncOp α

/-- Whether the request is a `set`. -/
def FuncOp.isSetOp {α : Type} : FuncOp α → Bool
  | FuncOp.setPt _ => true
  | _ => false

/-- Whether the request is a `value()`. -/
def FuncOp.isValueOp {α : Type} : FuncOp α → Bool
  | FuncOp.value => true
  | _ => false

/-- One external evaluation performed by `BasicLBFGSFunc`: which of
`f_.evaluate` (`isValueCall = true`) or `grad_.evaluate` was invoked, and at
which stored point `x_`. -/
structure ExtCall (α : Type) where
  isValueCall : Bool
  point : List α

/-- Observable results of a request sequence against `BasicLBFGSFunc`, given
the external objective `f` and gradient `g` and the currently stored point
`x0` (the member `x_`). Directly from lbfgs.hpp:85-87:
`set` does `x_ = x.contents()` (a copy, no evaluation);
`value()` returns `f_.evaluate(x_)` and leaves `x_` unchanged;
`derivative(res)` fills `res` with `grad_.evaluate(x_, ...)`, `x_` unchanged. -/
def funcOutputs {α : Type} (f : List α → α) (g : List α → List α) :
    List α → List (FuncOp α) → List (α ⊕ List α)
  | _, [] => []
  | _, FuncOp.setPt x :: ops => funcOutputs f g x.v_ ops
  | x0, FuncOp.value :: ops => Sum.inl (f x0) :: funcOutputs f g x0 ops
  | x0, FuncOp.deriv :: ops => Sum.inr (g x0) :: funcOutputs f g x0 ops

/-- The log of external evaluations triggered by a request sequence, given the
currently stored point `x0`. From lbfgs.hpp:85-87: `value()` invokes
`f_.evaluate(x_)` on every call, `derivative` invokes `grad_.evaluate(x_, ...)`
on every call, `set` invokes nothing. -/
def funcCalls {α : Type} : List α → List (FuncOp α) → List (ExtCall α)
  | _, [] => []
  | _, FuncOp.setPt x :: ops => funcCalls x.v_ ops
  | x0, FuncOp.value :: ops => ⟨true, x0⟩ :: funcCalls x0 ops
  | x0, FuncOp.deriv :: ops => ⟨false, x0⟩ :: funcCalls x0 ops

/-- Steps of a caller that owns a `BasicLargeVector` and a `BasicLBFGSFunc`
binding: bind the caller's vector (`f_.set(caller)`), mutate the caller's own
vector in place, or query `value()` / `derivative()`. -/
inductive CallerOp (α : Type) where
  | doSet : CallerOp α
  | callerMutate : (List α → List α) → CallerOp α
  | value : CallerOp α
  | deriv : CallerOp α

/-- Whether the caller step is a `set`. -/
def CallerOp.isSetStep {α : Type} : CallerOp α → Bool
  | CallerOp.doSet => true
  | _ => false

/-- Observable query results of a caller interacting with `BasicLBFGSFunc`.
State is (contents of the caller's vector, stored point `x_`). From
lbfgs.hpp:85: `set` performs `x_ = x.contents()`, a `std::vector` copy
assignment, so later mutation of the caller's vector leaves `x_` untouched. -/
def callerRun {α : Type} (f : List α → α) (g : List α → List α) :
    List α → List α → List (CallerOp α) → List (α ⊕ List α)
  | _, _, [] => []
  | caller, _, CallerOp.doSet :: ops => callerRun f g caller caller ops
  | caller, x0, CallerOp.callerMutate mu :: ops => callerRun f g (mu caller) x0 ops
  | caller, x0, CallerOp.value :: ops => Sum.inl (f x0) :: callerRun f g caller x0 ops
  | caller, x0, CallerOp.deriv :: ops => Sum.inr (g x0) :: callerRun f g caller x0 ops

/-- A record of one invocation of the user's progress callback, with the
arguments it was handed. -/
structure CbRecord (α : Type) where
  it : ℕ
  fval : α
  gnorm : α
  x : List α

/-- `LBFGS::myCallBack` (lbfgs.hpp:120-124): `if(cb_) cb_(it, f, gn,
v.contents());`. The stored pointer `cb_` is modelled by an `Option`; the
result lists the user-callback invocations this trampoline call performs:
none when `cb_` is null, exactly one otherwise. -/
def myCallBack {α : Type} (cb : Option (ℕ → α → α → List α → Unit))
    (it : ℕ) (fv gn : α) (v : BasicLargeVector α) : List (CbRecord α) :=
  match cb with
  | none => []
  | some _ => [⟨it, fv, gn, v.v_⟩]

/-- All user-callback invocations over a run: the engine calls the trampoline
`myCallBack` once per iteration with that iteration's
`(it, f, gradNorm, vector)` data. -/
def runCallbacks {α : Type} (cb : Option (ℕ → α → α → List α → Unit))
    (iters : List (ℕ × α × α × BasicLargeVector α)) : List (CbRecord α) :=
  (iters.map (fun p => myCallBack cb p.1 p.2.1 p.2.2.1 p.2.2.2)).flatten

/-- Terminal and running states of the engine's state machine (spec §4.5). -/
inductive EngineState where
  | Iterating
  | Converged
  | MaxIterExceeded
  | LineSearchFailed
  | DimensionError
deriving DecidableEq

/-- `LBFGS::LBFGS` (lbfgs.hpp:98-103): `factory_(n)`, then
`s_ = factory_.giveMeOne(); s_->contents() = starting;` — the freshly created
size-`n` vector's contents are replaced wholesale by the caller's `starting`
vector (taking on its length), and this vector is handed to the engine. -/
def lbfgsConstructStart (α : Type) [Zero α] (n : ℕ) (starting : List α) :
    BasicLargeVector α :=
  let s := BasicLargeVectorFactory.giveMeOne α ⟨n⟩
  { s with v_ := starting }

/-- `LBFGS::setStarting` (lbfgs.hpp:105-109): `s_->contents() = starting;
lbfgs_->setStarting(*s_);` — again the stored vector's contents are replaced by
the caller's vector before the engine sees it. -/
def lbfgsSetStarting {α : Type} (s : BasicLargeVector α) (starting : List α) :
    BasicLargeVector α :=
  { s with v_ := starting }

/-- Modelled from the spec: the initial transition of `LBFGS_General`'s state
machine (`lbfgs_general.hpp` is not among the visible sources) — "Initial state
transitions directly to `Iterating` after the first gradient evaluation at the
supplied starting point; a zero-dimensional or mismatched-dimension starting
vector transitions immediately to `DimensionError`." `n` is the factory's
configured dimension. -/
def engineInitState {α : Type} (n : ℕ) (start : BasicLargeVector α) :
    EngineState :=
  if start.v_.length = n ∧ n ≠ 0 then EngineState.Iterating
  else EngineState.DimensionError

/-- Modelled from the spec: iterations of the engine's outer loop execute only
from the `Iterating` state; every other state is terminal and executes none.
`doStep` abstracts the per-iteration state transition, `fuel` bounds the run;
the result counts the iterations executed. -/
def engineRun (doStep : ℕ → EngineState) : EngineState → ℕ → ℕ
  | _, 0 => 0
  | EngineState.Iterating, Nat.succ fuel => 1 + engineRun doStep (doStep fuel) fuel
  | _, Nat.succ _ => 0

/-- Modelled from the spec: the outer loop of `LBFGS_General::minimize`
(spec §4.5). Each turn: stop with `Converged` when the convergence test holds;
otherwise take one step (`iterate`, returning `none` on line-search failure,
which stops with `LineSearchFailed`, reporting the best point so far); stop
with `MaxIterExceeded` when the iteration cap is exhausted, returning the best
point found rather than failing. -/
def engineLoop {α : Type} (iterate : BasicLargeVector α → Option (BasicLargeVector α))
    (converged : BasicLargeVector α → Bool) :
    ℕ → BasicLargeVector α → BasicLargeVector α × EngineState
  | 0, x => (x, EngineState.MaxIterExceeded)
  | Nat.succ fuel, x =>
    if converged x then (x, EngineState.Converged)
    else
      match iterate x with
      | none => (x, EngineState.LineSearchFailed)
      | some x2 => engineLoop iterate converged fuel x2

/-- Modelled from the spec: `LBFGS_General::minimize` — the dimension check of
the initial transition is the only exceptional path (`DimensionError`, a fatal
caller defect); any run that passes it executes the loop and returns normally
with the final objective value, the final iterate (left in the caller's vector
`s`), and the terminal state. -/
def engineMinimize {α : Type} (n : ℕ) (s : BasicLargeVector α)
    (iterate : BasicLargeVector α → Option (BasicLargeVector α))
    (converged : BasicLargeVector α → Bool)
    (objVal : BasicLargeVector α → α) (maxIter : ℕ) :
    Except Unit (α × BasicLargeVector α × EngineState) :=
  if engineInitState n s = EngineState.DimensionError then Except.error ()
  else
    let r := engineLoop iterate converged maxIter s
    Except.ok (objVal r.1, r.1, r.2)

/-- `LBFGS::minimize` (lbfgs.hpp:111-117): `const double val =
lbfgs_->minimize(s_, ...); (*res) = s_->contents(); return val;` — the caller's
result vector receives the final contents of `s_`, and the value returned by
the underlying engine is passed through. -/
def lbfgsMinimize {α : Type} (n : ℕ) (s : BasicLargeVector α)
    (iterate : BasicLargeVector α → Option (BasicLargeVector α))
    (converged : BasicLargeVector α → Bool)
    (objVal : BasicLargeVector α → α) (maxIter : ℕ) :
    Except Unit (α × List α) :=
  match engineMinimize n s iterate converged objVal maxIter with
  | Except.error e => Except.error e
  | Except.ok r => Except.ok (r.1, r.2.1.v_)

/-- `LBFGSFunc::evaluate`, accumulator (lbfgs_test.cpp:23-26, `processId = 0`):
`res += pow(x[i] - double(i), 2) / (2 * (i+1) * (i+1))`. -/
def lbfgsTestRes {α : Type} [Field α] (n : ℕ) (x : ℕ → α) : α :=
  ∑ i in Finset.range n, (x i - (i : α))^2 / (2 * ((i : α) + 1) * ((i : α) + 1))

/-- `LBFGSFunc::evaluate`, result (lbfgs_test.cpp:34, `processId = 0`):
`return totalRes * totalRes / 2` with `totalRes = res`. -/
def lbfgsTestF {α : Type} [Field α] (n : ℕ) (x : ℕ → α) : α :=
  lbfgsTestRes n x * lbfgsTestRes n x / 2

/-- `LBFGSFuncGrad::evaluate`, accumulator (lbfgs_test.cpp:53-56,
`processId = 0`): `sum += pow(x[i] - double(i), 2) / ((i+1) * (i+1))`.
This is exactly the sum `S(x)` of the claim. -/
def lbfgsTestGradSum {α : Type} [Field α] (n : ℕ) (x : ℕ → α) : α :=
  ∑ i in Finset.range n, (x i - (i : α))^2 / (((i : α) + 1) * ((i : α) + 1))

/-- `LBFGSFuncGrad::evaluate`, component (lbfgs_test.cpp:64-65,
`processId = 0`): `res->at(i) = (x[i] - double(i)) * totalSum /
(2 * (i+1) * (i+1))` with `totalSum = sum`. -/
def lbfgsTestGrad {α : Type} [Field α] (n : ℕ) (x : ℕ → α) (i : ℕ) : α :=
  (x i - (i : α)) * lbfgsTestGradSum n x / (2 * ((i : α) + 1) * ((i : α) + 1))

/-! ## Theorems -/

/-- Claim C7: for every configured dimension `n ≥ 0`, the factory's
`giveMeOne` returns a vector of logical dimension `n` all of whose elements
are zero (`BasicLargeVector(n) : v_(n, 0)`). -/
theorem giveMeOne_fresh_zero (α : Type) [Zero α] (n : ℕ) :
    (BasicLargeVectorFactory.giveMeOne α ⟨n⟩).v_.length = n
    ∧ ∀ a ∈ (BasicLargeVectorFactory.giveMeOne α ⟨n⟩).v_, a = 0 := by
  constructor
  · simp [BasicLargeVectorFactory.giveMeOne, BasicLargeVector.mkZero]
  · intro a ha
    simpa [BasicLargeVectorFactory.giveMeOne, BasicLargeVector.mkZero] using
      List.eq_of_mem_replicate ha

/-- Witness for C7 at a concrete dimension over `ℚ`. -/
theorem giveMeOne_fresh_zero_witness :
    (BasicLargeVectorFactory.giveMeOne ℚ ⟨3⟩).v_.length = 3
    ∧ ∀ a ∈ (BasicLargeVectorFactory.giveMeOne ℚ ⟨3⟩).v_, a = 0 :=
  giveMeOne_fresh_zero ℚ 3

/-- Claim C10: with a null stored callback pointer, the trampoline
`myCallBack` performs no user-callback invocation at all, over any sequence of
engine iterations. -/
theorem null_callback_never_invoked (α : Type)
    (iters : List (ℕ × α × α × BasicLargeVector α)) :
    runCallbacks (none : Option (ℕ → α → α → List α → Unit)) iters = []
    ∧ ∀ (it : ℕ) (fv gn : α) (v : BasicLargeVector α),
        myCallBack (none : Option (ℕ → α → α → List α → Unit)) it fv gn v = [] := by
  refine ⟨?_, fun it fv gn v => rfl⟩
  simp [runCallbacks, myCallBack]

/-- Claim C1: a starting vector whose size differs from the factory's
configured dimension `n` leads, through both the constructor path and the
`setStarting` path, to the `DimensionError` state immediately, and from that
state no iteration ever executes; the wrapper's wholesale contents assignment
preserves the mismatched length, so nothing masks the mismatch. -/
theorem mismatched_start_dimension_error (α : Type) [Zero α] (n : ℕ)
    (starting : List α) (h : starting.length ≠ n) :
    engineInitState n (lbfgsConstructStart α n starting) = EngineState.DimensionError
    ∧ (∀ s : BasicLargeVector α,
        engineInitState n (lbfgsSetStarting s starting) = EngineState.DimensionError)
    ∧ ∀ (doStep : ℕ → EngineState) (fuel : ℕ),
        engineRun doStep (engineInitState n (lbfgsConstructStart α n starting)) fuel = 0 := by
  have h1 : engineInitState n (lbfgsConstructStart α n starting)
      = EngineState.DimensionError := by
    unfold engineInitState lbfgsConstructStart
    exact if_neg (fun hc => h hc.1)
  refine ⟨h1, fun s => ?_, fun doStep fuel => ?_⟩
  · unfold engineInitState lbfgsSetStarting
    exact if_neg (fun hc => h hc.1)
  · rw [h1]
    cases fuel <;> rfl

/-- Witness for C1: dimension 2 factory, starting vector of length 3. -/
theorem mismatched_start_dimension_error_witness :
    (([1, 2, 3] : List ℚ).length ≠ 2)
    ∧ (engineInitState 2 (lbfgsConstructStart ℚ 2 [1, 2, 3]) = EngineState.DimensionError
      ∧ (∀ s : BasicLargeVector ℚ,
          engineInitState 2 (lbfgsSetStarting s [1, 2, 3]) = EngineState.DimensionError)
      ∧ ∀ (doStep : ℕ → EngineState) (fuel : ℕ),
          engineRun doStep (engineInitState 2 (lbfgsConstructStart ℚ 2 [1, 2, 3])) fuel = 0) :=
  ⟨by decide, mismatched_start_dimension_error ℚ 2 [1, 2, 3] (by decide)⟩

/-- One more insertion is a fold step. -/
theorem histRun_append {α : Type} (m : ℕ) (l : List (HistEntry α)) (e : HistEntry α) :
    histRun m (l ++ [e]) = histInsert m (histRun m l) e := by
  simp [histRun, List.foldl_append]

/-- The buffer after inserting a chronological sequence into an empty buffer
is exactly the last-`m` suffix of that sequence. -/
theorem histRun_suffix {α : Type} (m : ℕ) (l : List (HistEntry α)) :
    histRun m l = l.drop (l.length - m) := by
  induction l using List.reverseRecOn with
  | nil => simp [histRun]
  | append_singleton l e ih =>
    rw [histRun_append, ih]
    unfold histInsert
    simp only [List.length_append, List.length_singleton, List.length_drop]
    rcases le_or_lt l.length m with hle | hlt
    · have h0 : l.length - m = 0 := Nat.sub_eq_zero_of_le hle
      simp [h0]
    · rcases Nat.eq_zero_or_pos m with hm0 | hmpos
      · subst hm0
        have hnil : List.drop (l.length - 0) l = [] :=
          List.drop_eq_nil_of_le (by omega)
        rw [hnil]
        have h2 : l.length - (l.length - 0) + 1 - 0 = 1 := by omega
        rw [h2]
        rw [List.drop_eq_nil_of_le (by simp)]
        rw [List.drop_eq_nil_of_le (by simp)]
      · have ha : l.length - (l.length - m) + 1 - m = 1 := by omega
        rw [ha]
        rw [List.drop_append_of_le_length (by rw [List.length_drop]; omega)]
        rw [List.drop_drop]
        rw [List.drop_append_of_le_length (by omega)]
        have hc : l.length + 1 - m = l.length - m + 1 := by omega
        rw [hc]

/-- Claim C2: after any number of insertions the HistoryBuffer holds at most
`m` entries, the retained entries are exactly the most recent ones in
chronological order (the last-`m` suffix of the insertion sequence), and an
insertion into a full buffer evicts precisely the oldest entry (the head). -/
theorem historyBuffer_bounded_chronological {α : Type} (m : ℕ)
    (l : List (HistEntry α)) :
    (histRun m l).length ≤ m
    ∧ histRun m l = l.drop (l.length - m)
    ∧ ∀ (buf : List (HistEntry α)) (e : HistEntry α),
        buf.length = m → 0 < m → histInsert m buf e = buf.tail ++ [e] := by
  refine ⟨?_, histRun_suffix m l, fun buf e hfull hm => ?_⟩
  · rw [histRun_suffix, List.length_drop]
    omega
  · unfold histInsert
    rw [hfull]
    have h1 : m + 1 - m = 1 := by omega
    rw [h1, List.drop_append_of_le_length (by omega), List.drop_one]

/-- Witness for C2: memory depth 1, two insertions; the second insertion into
the full buffer evicts the first entry. -/
theorem historyBuffer_bounded_chronological_witness :
    histInsert 1 [(⟨[], [], 0⟩ : HistEntry ℚ)] ⟨[], [], 1⟩
      = [(⟨[], [], 0⟩ : HistEntry ℚ)].tail ++ [⟨[], [], 1⟩] :=
  (historyBuffer_bounded_chronological 1 []).2.2 [⟨[], [], 0⟩] ⟨[], [], 1⟩ rfl
    (by decide)

/-- Membership after an insertion comes from the old buffer or is the new
entry. -/
theorem mem_histInsert {α : Type} {m : ℕ} {buf : List (HistEntry α)}
    {e a : HistEntry α} (ha : a ∈ histInsert m buf e) : a ∈ buf ∨ a = e := by
  unfold histInsert at ha
  have := List.mem_of_mem_drop ha
  rcases List.mem_append.mp this with h | h
  · exact Or.inl h
  · exact Or.inr (List.mem_singleton.mp h)

/-- Every entry of a buffer built by curvature-checked updates has curvature
product above the threshold. -/
theorem histRunUpdates_curvature {α : Type} [LinearOrderedField α] (m : ℕ)
    (eps : α) :
    ∀ (cands : List (List α × List α)) (buf : List (HistEntry α)),
      (∀ e ∈ buf, eps < dotL e.s e.y) →
      ∀ e ∈ cands.foldl (fun b c => histUpdate m eps b c.1 c.2) buf,
        eps < dotL e.s e.y := by
  intro cands
  induction cands with
  | nil => intro buf hbuf e he; exact hbuf e he
  | cons c cs ih =>
    intro buf hbuf e he
    rw [List.foldl_cons] at he
    refine ih _ ?_ e he
    intro a ha
    unfold histUpdate at ha
    by_cases hc : dotL c.1 c.2 ≤ eps
    · rw [if_pos hc] at ha
      exact hbuf a ha
    · rw [if_neg hc] at ha
      rcases mem_histInsert ha with h | h
      · exact hbuf a h
      · subst h
        exact lt_of_not_le hc

/-- Claim C3: a candidate pair whose curvature product is at or below the
threshold is never inserted — the buffer is returned unchanged (its length does
not grow) — and consequently no entry with curvature product at or below the
threshold ever appears among the stored entries of any run. -/
theorem curvature_pairs_rejected {α : Type} [LinearOrderedField α] (m : ℕ)
    (eps : α) (cands : List (List α × List α)) :
    (∀ e ∈ histRunUpdates m eps cands, eps < dotL e.s e.y)
    ∧ ∀ (buf : List (HistEntry α)) (s y : List α),
        dotL s y ≤ eps → histUpdate m eps buf s y = buf := by
  constructor
  · exact histRunUpdates_curvature m eps cands [] (fun e he => absurd he (by simp))
  · intro buf s y hsy
    unfold histUpdate
    exact if_pos hsy

/-- Witness for C3: with threshold 0, a negative-curvature candidate leaves
the buffer empty, and the accepted entries of a mixed run all have positive
curvature product. -/
theorem curvature_pairs_rejected_witness :
    (∀ e ∈ histRunUpdates 2 (0 : ℚ) [([1], [1]), ([1], [-1])],
        (0 : ℚ) < dotL e.s e.y)
    ∧ histUpdate 2 (0 : ℚ) [] [1] [-1] = [] :=
  ⟨(curvature_pairs_rejected 2 0 [([1], [1]), ([1], [-1])]).1,
    (curvature_pairs_rejected 2 0 []).2 [] [1] [-1] (by norm_num [dotL])⟩

/-- Counterexample for C5: after a single `set(x)`, two `value()` requests
perform two external objective evaluations — `value()` executes
`return f_.evaluate(x_)` on every call, so the external function is not
evaluated at most once per bound point per kind of request. -/
theorem no_value_cache_counterexample :
    ¬ ((funcCalls ([] : List ℚ)
        [FuncOp.setPt ⟨[5]⟩, FuncOp.value, FuncOp.value]).countP
          (fun c => c.isValueCall) ≤ 1) := by
  decide

/-- Claim C5 (amended): `set(x)` stores the evaluation point, and every
subsequent `value()` (or `derivative()`) request re-invokes the external
objective (or gradient) computation once per call — `k` value requests and `j`
derivative requests cause exactly `k` external objective evaluations and `j`
external gradient evaluations, every one of them at the most recently set
point; no cached value or derivative exists. -/
theorem set_then_queries_reinvoke_each_call {α : Type} (x : BasicLargeVector α)
    (x0 : List α) (k j : ℕ) :
    funcCalls x0
      (FuncOp.setPt x :: (List.replicate k FuncOp.value
        ++ List.replicate j FuncOp.deriv))
      = List.replicate k ⟨true, x.v_⟩ ++ List.replicate j ⟨false, x.v_⟩ := by
  show funcCalls x.v_ (List.replicate k FuncOp.value
      ++ List.replicate j FuncOp.deriv) = _
  induction k with
  | zero =>
    simp only [List.replicate_zero, List.nil_append]
    induction j with
    | zero => rfl
    | succ j ihj =>
      simp only [List.replicate_succ, funcCalls, List.append_eq] at ihj ⊢
      rw [ihj]
  | succ k ihk =>
    simp only [List.replicate_succ, List.cons_append, funcCalls, List.append_eq]
      at ihk ⊢
    rw [ihk]

/-- Claim C6: for a fixed bound point the binding is idempotent — after one
`set(x)`, any sequence of `value()` / `derivative()` requests, in any order and
multiplicity, yields `f(x)` for every value request and `grad(x)` for every
derivative request; in particular two `value()` calls return the identical
result both times. -/
theorem bound_point_idempotent {α : Type} (f : List α → α) (g : List α → List α)
    (x : BasicLargeVector α) (ops : List (FuncOp α))
    (h : ∀ op ∈ ops, op.isSetOp = false) :
    funcOutputs f g x.v_ ops
      = ops.map (fun op =>
          if op.isValueOp then Sum.inl (f x.v_) else Sum.inr (g x.v_)) := by
  induction ops with
  | nil => rfl
  | cons op ops ih =>
    cases op with
    | setPt y =>
      exact absurd (h (FuncOp.setPt y) (List.mem_cons_self _ _))
        (by simp [FuncOp.isSetOp])
    | value =>
      have ih2 := ih (fun o ho => h o (List.mem_cons_of_mem _ ho))
      simp [funcOutputs, FuncOp.isValueOp, ih2]
    | deriv =>
      have ih2 := ih (fun o ho => h o (List.mem_cons_of_mem _ ho))
      simp [funcOutputs, FuncOp.isValueOp, ih2]

/-- Witness for C6 at concrete data over `ℚ`: value, derivative, value again. -/
theorem bound_point_idempotent_witness :
    (∀ op ∈ ([FuncOp.value, FuncOp.deriv, FuncOp.value] : List (FuncOp ℚ)),
        op.isSetOp = false)
    ∧ funcOutputs (fun l => l.sum) (fun l => l)
        ((⟨[2]⟩ : BasicLargeVector ℚ)).v_ [FuncOp.value, FuncOp.deriv, FuncOp.value]
      = ([FuncOp.value, FuncOp.deriv, FuncOp.value] : List (FuncOp ℚ)).map
          (fun op => if op.isValueOp then Sum.inl (List.sum [2])
            else Sum.inr ((fun l => l) [2])) :=
  ⟨by decide, bound_point_idempotent (fun l => l.sum) (fun l => l) ⟨[2]⟩
    [FuncOp.value, FuncOp.deriv, FuncOp.value] (by decide)⟩

/-- When no step is a `set`, the caller's own vector never influences the
query results. -/
theorem callerRun_ignores_caller {α : Type} (f : List α → α)
    (g : List α → List α) :
    ∀ (ops : List (CallerOp α)), (∀ op ∈ ops, op.isSetStep = false) →
      ∀ (c1 c2 x0 : List α), callerRun f g c1 x0 ops = callerRun f g c2 x0 ops := by
  intro ops
  induction ops with
  | nil => intro _ c1 c2 x0; rfl
  | cons op ops ih =>
    intro h c1 c2 x0
    cases op with
    | doSet =>
      exact absurd (h CallerOp.doSet (List.mem_cons_self _ _))
        (by simp [CallerOp.isSetStep])
    | callerMutate mu =>
      exact ih (fun o ho => h o (List.mem_cons_of_mem _ ho)) (mu c1) (mu c2) x0
    | value =>
      simp only [callerRun]
      rw [ih (fun o ho => h o (List.mem_cons_of_mem _ ho)) c1 c2 x0]
    | deriv =>
      simp only [callerRun]
      rw [ih (fun o ho => h o (List.mem_cons_of_mem _ ho)) c1 c2 x0]

/-- Claim C9: `set` stores a copy of the argument's contents
(`x_ = x.contents()` is a `std::vector` copy assignment), so the bound point is
independent of the caller's vector afterward: two runs whose callers bind
vectors of equal contents produce identical `value()`/`derivative()` results
even if one run mutates its own vector arbitrarily right after `set`. -/
theorem set_stores_copy {α : Type} (f : List α → α) (g : List α → List α)
    (a b : BasicLargeVector α) (mu : List α → List α) (ops : List (CallerOp α))
    (hab : a.v_ = b.v_) (h : ∀ op ∈ ops, op.isSetStep = false) :
    callerRun f g a.v_ [] (CallerOp.doSet :: ops)
      = callerRun f g b.v_ [] (CallerOp.doSet :: CallerOp.callerMutate mu :: ops) := by
  show callerRun f g a.v_ a.v_ ops = callerRun f g (mu b.v_) b.v_ ops
  rw [hab]
  exact callerRun_ignores_caller f g ops h b.v_ (mu b.v_) b.v_

/-- Witness for C9: equal-content callers over `ℚ`; the second caller clears
its vector after `set`, yet both query streams agree. -/
theorem set_stores_copy_witness :
    ((⟨[3, 4]⟩ : BasicLargeVector ℚ)).v_ = ((⟨[3, 4]⟩ : BasicLargeVector ℚ)).v_
    ∧ callerRun (fun l => l.sum) (fun l => l)
        ((⟨[3, 4]⟩ : BasicLargeVector ℚ)).v_ [] (CallerOp.doSet :: [CallerOp.value, CallerOp.deriv])
      = callerRun (fun l => l.sum) (fun l => l)
        ((⟨[3, 4]⟩ : BasicLargeVector ℚ)).v_ []
        (CallerOp.doSet :: CallerOp.callerMutate (fun _ => []) ::
          [CallerOp.value, CallerOp.deriv]) :=
  ⟨rfl, set_stores_copy (fun l => l.sum) (fun l => l) ⟨[3, 4]⟩ ⟨[3, 4]⟩
    (fun _ => []) [CallerOp.value, CallerOp.deriv] rfl (by decide)⟩

/-- The loop of the modelled engine only ever stops in one of the three
normal terminal states. -/
theorem engineLoop_terminal {α : Type}
    (iterate : BasicLargeVector α → Option (BasicLargeVector α))
    (converged : BasicLargeVector α → Bool) :
    ∀ (fuel : ℕ) (x : BasicLargeVector α),
      (engineLoop iterate converged fuel x).2 = EngineState.Converged
      ∨ (engineLoop iterate converged fuel x).2 = EngineState.MaxIterExceeded
      ∨ (engineLoop iterate converged fuel x).2 = EngineState.LineSearchFailed := by
  intro fuel
  induction fuel with
  | zero => intro x; exact Or.inr (Or.inl rfl)
  | succ fuel ih =>
    intro x
    unfold engineLoop
    by_cases hc : converged x
    · rw [if_pos hc]
      exact Or.inl rfl
    · rw [if_neg hc]
      cases hit : iterate x with
      | none => exact Or.inr (Or.inr rfl)
      | some x2 => exact ih x2

/-- Claim C4: whenever the dimension check passes, `minimize` returns
normally: the engine yields the final objective value and a terminal state
among Converged / MaxIterExceeded / LineSearchFailed (never through the
exceptional `DimensionError` path), the wrapper passes the engine's value
through unchanged, and the caller's result vector receives the contents of the
final iterate. -/
theorem minimize_return_contract {α : Type} (n maxIter : ℕ)
    (s : BasicLargeVector α)
    (iterate : BasicLargeVector α → Option (BasicLargeVector α))
    (converged : BasicLargeVector α → Bool) (objVal : BasicLargeVector α → α)
    (h : engineInitState n s ≠ EngineState.DimensionError) :
    ∃ (xFin : BasicLargeVector α) (st : EngineState),
      engineMinimize n s iterate converged objVal maxIter
        = Except.ok (objVal xFin, xFin, st)
      ∧ lbfgsMinimize n s iterate converged objVal maxIter
        = Except.ok (objVal xFin, xFin.v_)
      ∧ (st = EngineState.Converged ∨ st = EngineState.MaxIterExceeded
          ∨ st = EngineState.LineSearchFailed) := by
  refine ⟨(engineLoop iterate converged maxIter s).1,
    (engineLoop iterate converged maxIter s).2, ?_, ?_, ?_⟩
  · unfold engineMinimize
    rw [if_neg h]
  · unfold lbfgsMinimize engineMinimize
    rw [if_neg h]
  · exact engineLoop_terminal iterate converged maxIter s

/-- Witness for C4: dimension 1, starting vector `[0]`, an engine whose line
search immediately fails. -/
theorem minimize_return_contract_witness :
    engineInitState 1 ((⟨[0]⟩ : BasicLargeVector ℚ)) ≠ EngineState.DimensionError
    ∧ ∃ (xFin : BasicLargeVector ℚ) (st : EngineState),
        engineMinimize 1 ⟨[0]⟩ (fun _ => none) (fun _ => false) (fun _ => 0) 5
          = Except.ok ((fun _ => (0 : ℚ)) xFin, xFin, st)
        ∧ lbfgsMinimize 1 ⟨[0]⟩ (fun _ => none) (fun _ => false) (fun _ => 0) 5
          = Except.ok ((fun _ => (0 : ℚ)) xFin, xFin.v_)
        ∧ (st = EngineState.Converged ∨ st = EngineState.MaxIterExceeded
            ∨ st = EngineState.LineSearchFailed) :=
  ⟨by decide, minimize_return_contract 1 5 ⟨[0]⟩ (fun _ => none) (fun _ => false)
    (fun _ => 0) (by decide)⟩

/-- The objective's accumulator is half the gradient's accumulator: the former
divides each square by `2 (i+1)²`, the latter by `(i+1)²`. -/
theorem lbfgsTestRes_half_gradSum {α : Type} [Field α] (n : ℕ) (x : ℕ → α) :
    lbfgsTestRes n x = lbfgsTestGradSum n x / 2 := by
  unfold lbfgsTestRes lbfgsTestGradSum
  rw [Finset.sum_div]
  refine Finset.sum_congr rfl (fun j _ => ?_)
  rw [div_div]
  ring_nf

/-- Derivative of the objective's accumulator in coordinate `i`. -/
theorem lbfgsTestRes_hasDeriv (n : ℕ) (x : ℕ → ℝ) (i : ℕ) (h : i < n) :
    HasDerivAt (fun t => lbfgsTestRes n (Function.update x i t))
      ((x i - (i : ℝ)) / (((i : ℝ) + 1) * ((i : ℝ) + 1))) (x i) := by
  have hk : ((i : ℝ) + 1) ≠ 0 := by positivity
  have hsum : HasDerivAt
      (fun t => ∑ j in Finset.range n,
        (Function.update x i t j - (j : ℝ))^2 / (2 * ((j : ℝ) + 1) * ((j : ℝ) + 1)))
      (∑ j in Finset.range n,
        (if j = i then 2 * (x i - (i : ℝ)) / (2 * ((i : ℝ) + 1) * ((i : ℝ) + 1))
          else 0))
      (x i) := by
    refine HasDerivAt.sum (fun j _ => ?_)
    by_cases hji : j = i
    · subst hji
      simp only [Function.update_same, eq_self_iff_true, if_true]
      have hd := (((hasDerivAt_id (x j)).sub_const ((j : ℝ))).pow 2).div_const
        (2 * ((j : ℝ) + 1) * ((j : ℝ) + 1))
      convert hd using 1
      simp only [id_eq]
      ring
    · simp only [Function.update_noteq hji, if_neg hji]
      exact hasDerivAt_const (x i) _
  rw [Finset.sum_ite_eq' (Finset.range n) i] at hsum
  rw [if_pos (Finset.mem_range.mpr h)] at hsum
  unfold lbfgsTestRes
  convert hsum using 1
  field_simp
  ring

/-- Claim C8: in the single-process test program the objective is
`f(x) = S(x)² / 8` with `S(x) = Σ (x_i − i)² / (i+1)²` (the gradient
program's accumulator), the gradient component is
`(x_i − i)·S(x) / (2 (i+1)²)`, and that component is exactly the partial
derivative `∂f/∂x_i` of the supplied objective. -/
theorem lbfgsTest_gradient_analytic (n : ℕ) (x : ℕ → ℝ) (i : ℕ) (h : i < n) :
    lbfgsTestF n x = (lbfgsTestGradSum n x)^2 / 8
    ∧ lbfgsTestGrad n x i
        = (x i - (i : ℝ)) * lbfgsTestGradSum n x / (2 * ((i : ℝ) + 1)^2)
    ∧ HasDerivAt (fun t => lbfgsTestF n (Function.update x i t))
        (lbfgsTestGrad n x i) (x i) := by
  have hk : ((i : ℝ) + 1) ≠ 0 := by positivity
  refine ⟨?_, ?_, ?_⟩
  · unfold lbfgsTestF
    rw [lbfgsTestRes_half_gradSum]
    ring
  · unfold lbfgsTestGrad
    ring
  · have hR := lbfgsTestRes_hasDeriv n x i h
    have hF := (hR.mul hR).div_const 2
    rw [Function.update_eq_self] at hF
    unfold lbfgsTestF
    convert hF using 1
    unfold lbfgsTestGrad
    rw [lbfgsTestRes_half_gradSum]
    field_simp
    ring

/-- Witness for C8 at `n = 1`, `i = 0`, `x = 0`. -/
theorem lbfgsTest_gradient_analytic_witness :
    (0 < 1)
    ∧ (lbfgsTestF 1 (fun _ => (0 : ℝ)) = (lbfgsTestGradSum 1 (fun _ => (0 : ℝ)))^2 / 8
      ∧ lbfgsTestGrad 1 (fun _ => (0 : ℝ)) 0
          = ((fun _ => (0 : ℝ)) 0 - ((0 : ℕ) : ℝ)) * lbfgsTestGradSum 1 (fun _ => (0 : ℝ))
              / (2 * (((0 : ℕ) : ℝ) + 1)^2)
      ∧ HasDerivAt
          (fun t => lbfgsTestF 1 (Function.update (fun _ => (0 : ℝ)) 0 t))
          (lbfgsTestGrad 1 (fun _ => (0 : ℝ)) 0) ((fun _ => (0 : ℝ)) 0)) :=
  ⟨by decide, lbfgsTest_gradient_analytic 1 (fun _ => (0 : ℝ)) 0 (by decide)⟩

end CosmoPP
